import Mathlib

/-!
Verification development for the alarm scheduler repository
(src/alarm_mutex.c and src/unnamed/part_000).

The development shallowly embeds the data model and the operations of the
program:

* `AlarmRec` mirrors `struct alarm_tag` (id, seconds, time, message, Changed);
  the `link` pointer is represented either implicitly (list models) or
  explicitly (the heap model below, needed because `Insert` manipulates raw
  pointers in a way no abstract list can reproduce).
* `Change` is the list-level embedding of `Change` (src/alarm_mutex.c lines
  89-112 and src/unnamed/part_000 lines 63-77), which walks the links without
  modifying them, so a plain list is a faithful abstraction.
* `alarmThreadIter` embeds one iteration of `alarm_thread`
  (src/unnamed/part_000 lines 92-131): read the head, if absent sleep 1,
  otherwise unlink the head unconditionally and compute the sleep time.
* `displayTrace` embeds the announcement loop of `display_thread`
  (src/alarm_mutex.c lines 188-203): while the alarm has not expired print a
  status line and sleep 5 time units, then print the removal line.
* A heap model (`CSt`, `insertLoop`, `changeLoop`) embeds `Insert`
  (src/alarm_mutex.c lines 47-84) at the pointer level, because `Insert`
  advances over the freshly allocated node through its indeterminate `link`
  field; dereferencing an invalid or NULL pointer yields `CRes.undef`.
* An action-trace model (`Act`) embeds the lock/unlock/sleep/print skeleton of
  each thread body, and a small interleaving model (`Sys`, `SysStep`) embeds
  the alarm-thread/display-thread hand-off protocol (mutex, `d1_cond`,
  `current_alarm`).
-/

/-- Mirror of `struct alarm_tag` without the `link` pointer:
`id`, `seconds`, `time` (absolute expiry, seconds from epoch), `message`,
and the `Changed` flag of src/alarm_mutex.c. -/
structure AlarmRec where
  id : Int
  seconds : Int
  time : Int
  message : String
  changed : Int
deriving DecidableEq, Repr

/-- Effect of the matched branch of `Change` (src/alarm_mutex.c lines 102-104):
`strcpy(alarm->message, new->message); alarm->seconds = new->seconds;
alarm->time = time(NULL) + new->seconds;`. Only these three fields change. -/
def patchRec (a : AlarmRec) (now nsec : Int) (nmsg : String) : AlarmRec :=
  { a with message := nmsg, seconds := nsec, time := now + nsec }

/-- List-level embedding of `Change` (src/alarm_mutex.c lines 89-112):
walk the list, patch the first record whose `id` matches, stop there.
The boolean records whether a match was found (the code stores this in
`new->Changed = 1`; the spec describes it as the `update` return value). -/
def Change : List AlarmRec → Int → Int → Int → String → List AlarmRec × Bool
  | [], _, _, _, _ => ([], false)
  | a :: rest, now, nid, nsec, nmsg =>
    if a.id = nid then (patchRec a now nsec nmsg :: rest, true)
    else
      let r := Change rest now nid nsec nmsg
      (a :: r.1, r.2)

/-- Result of one iteration of `alarm_thread` (src/unnamed/part_000
lines 92-131): the remaining list, the record unlinked (if any), and the
computed `sleep_time`. -/
structure AThreadRes where
  list : List AlarmRec
  taken : Option AlarmRec
  sleepTime : Int
deriving DecidableEq, Repr

/-- One iteration of `alarm_thread` (src/unnamed/part_000 lines 97-108):
`alarm = alarm_list; if (alarm == NULL) sleep_time = 1; else {
alarm_list = alarm->link; now = time(NULL); if (alarm->time <= now)
sleep_time = 0; else sleep_time = alarm->time - now; }`.
Note the head is unlinked unconditionally, due or not. -/
def alarmThreadIter (l : List AlarmRec) (now : Int) : AThreadRes :=
  match l with
  | [] => ⟨[], none, 1⟩
  | a :: rest => ⟨rest, some a, if a.time ≤ now then 0 else a.time - now⟩

/-- Iterate `alarmThreadIter` until the list is empty, collecting the records
it removes, advancing time by the reported sleep each round. -/
def drainTaken : List AlarmRec → Int → List AlarmRec
  | [], _ => []
  | a :: rest, now =>
    let r := alarmThreadIter (a :: rest) now
    match r.taken with
    | none => []
    | some b => b :: drainTaken rest (now + r.sleepTime)

/-- Events printed by `display_thread` (src/alarm_mutex.c lines 194-203):
the periodic status line and the final removal line, with the fields each
printf interpolates. -/
inductive DEvent
  | status (id : Int) (worker : Nat) (t : Int) (msg : String)
  | removal (id : Int) (t : Int) (msg : String)
deriving DecidableEq, Repr

/-- The announcement loop of `display_thread` (src/alarm_mutex.c lines
188-203): while `alarm->time > time(NULL)` print a status line carrying the
id, the worker identity, the current time and the message, then `sleep(5)`;
once expired print the removal line. Time advances by exactly the 5-unit
sleep each round. -/
def displayTrace (w : Nat) (now : Int) (a : AlarmRec) : List DEvent :=
  if h : a.time > now then
    DEvent.status a.id w now a.message :: displayTrace w (now + 5) a
  else
    [DEvent.removal a.id now a.message]
termination_by (a.time - now).toNat
decreasing_by
  all_goals simp_wf
  all_goals omega

/-- Number of status announcements `display_thread` makes starting at `now`:
one per 5-unit round while the alarm has not expired. -/
def nAnn (now : Int) (a : AlarmRec) : Nat :=
  if h : a.time > now then nAnn (now + 5) a + 1 else 0
termination_by (a.time - now).toNat
decreasing_by
  all_goals simp_wf
  all_goals omega

/-! ## Heap model of the linked list

`Insert` (src/alarm_mutex.c lines 47-84) walks the list through
`alarm_t **last` and, crucially, advances via `last = &new->link; new =
new->link;`, i.e. through the freshly `malloc`-ed node, whose `link` field
malloc leaves indeterminate. A pointer-level model is therefore required. Addresses are
naturals, `none` is the NULL pointer, and the heap is an association list from
addresses to nodes. Dereferencing NULL or an address not in the heap is
undefined behavior, modelled as `CRes.undef`. -/

/-- A heap node: the `link` pointer plus the record fields. -/
structure CNode where
  link : Option Nat
  data : AlarmRec
deriving DecidableEq, Repr

/-- The heap: association list from addresses to nodes. -/
abbrev AHeap := List (Nat × CNode)

/-- Look an address up in the heap. -/
def hfind : AHeap → Nat → Option CNode
  | [], _ => none
  | (b, nd) :: rest, a => if b = a then some nd else hfind rest a

/-- Apply `f` to the node at address `a` (no-op if `a` is absent). -/
def hmod : AHeap → Nat → (CNode → CNode) → AHeap
  | [], _, _ => []
  | (b, nd) :: rest, a, f =>
    if b = a then (b, f nd) :: hmod rest a f else (b, nd) :: hmod rest a f

/-- Program state: the global `alarm_list` root pointer and the heap. -/
structure CSt where
  root : Option Nat
  heap : AHeap
deriving DecidableEq, Repr

/-- An l-value of type `alarm_t *`: either the global `alarm_list`
(`&alarm_list`) or the `link` field of the node at an address
(`&node->link`). This is what the `alarm_t **last` cursor ranges over. -/
inductive CPlace
  | root
  | field (a : Nat)
deriving DecidableEq, Repr

/-- Read the pointer stored at a place (`*last`); `none` means the place
itself is invalid (field of an address not in the heap). -/
def readP (s : CSt) : CPlace → Option (Option Nat)
  | CPlace.root => some s.root
  | CPlace.field a => (hfind s.heap a).map (fun nd => nd.link)

/-- Write a pointer to a place (`*last = v`). -/
def writeP (s : CSt) (p : CPlace) (v : Option Nat) : CSt :=
  match p with
  | CPlace.root => { s with root := v }
  | CPlace.field a => { s with heap := hmod s.heap a (fun nd => { nd with link := v }) }

/-- Outcome of a C fragment: a new state, or undefined behavior. -/
inductive CRes
  | ok (s : CSt)
  | undef
deriving DecidableEq, Repr

/-- The code after `Insert`'s loop (src/alarm_mutex.c lines 76-83):
`if (*last == NULL) { *last = new; } new->time = time(NULL) + new->seconds;`
(the printf is ignored). If `new` is NULL at this point, `new->time`
dereferences NULL: undefined. -/
def insertExit (s : CSt) (last : CPlace) (newp : Option Nat) (now : Int) : CRes :=
  let s1 := if readP s last = some none then writeP s last newp else s
  match newp with
  | none => CRes.undef
  | some na =>
    match hfind s1.heap na with
    | none => CRes.undef
    | some _ =>
      CRes.ok { s1 with
        heap := hmod s1.heap na
          (fun nd => { nd with data := { nd.data with time := now + nd.data.seconds } }) }

/-- The break branch of `Insert`'s loop (src/alarm_mutex.c lines 60-63):
`new->link = old; *last = new; new->Changed = 0; break;` followed by the
code after the loop. -/
def insertBreak (s : CSt) (last : CPlace) (na oa : Nat) (now : Int) : CRes :=
  let s1 : CSt := { s with heap := hmod s.heap na (fun nd => { nd with link := some oa }) }
  let s2 := writeP s1 last (some na)
  let f3 : CNode → CNode := fun nd => { nd with data := { nd.data with changed := 0 } }
  let s3 : CSt := { s2 with heap := hmod s2.heap na f3 }
  insertExit s3 last (some na) now

/-- One iteration of `Insert`'s loop (src/alarm_mutex.c lines 50-74), with
the continuation `rec` standing for the remaining iterations.
`old = *last` is captured once before the loop and never advanced (a slip in
the source, which the model reproduces). The iteration is
`while (*last != NULL) { if (old->id >= new->id) { if (old->seconds >=
new->seconds) { new->link = old; *last = new; new->Changed = 0; break; }
else { last = &new->link; new = new->link; continue; } } last = &new->link;
new = new->link; }` followed, on exit or break, by `insertExit`. -/
def insertStep (rec : CSt → CPlace → Option Nat → Option Nat → Int → Option CRes)
    (s : CSt) (last : CPlace) (newp old : Option Nat) (now : Int) : Option CRes :=
  match readP s last with
  | none => some CRes.undef
  | some none => some (insertExit s last newp now)
  | some (some _) =>
    match old with
    | none => some CRes.undef
    | some oa =>
      match hfind s.heap oa with
      | none => some CRes.undef
      | some onode =>
        match newp with
        | none => some CRes.undef
        | some na =>
          match hfind s.heap na with
          | none => some CRes.undef
          | some nnode =>
            if onode.data.id ≥ nnode.data.id then
              if onode.data.seconds ≥ nnode.data.seconds then
                some (insertBreak s last na oa now)
              else rec s (CPlace.field na) nnode.link old now
            else rec s (CPlace.field na) nnode.link old now

/-- The loop of `Insert`, iterated with fuel; `none` means fuel ran out. -/
def insertLoop : Nat → CSt → CPlace → Option Nat → Option Nat → Int → Option CRes
  | 0, _, _, _, _, _ => none
  | fuel + 1, s, last, newp, old, now => insertStep (insertLoop fuel) s last newp old now

/-- `Insert(&alarm_list, new)` (src/alarm_mutex.c lines 47-84): run the loop
with `last = &alarm_list`, `new` the address of the new node and
`old = *last = alarm_list`. The fuel is generous enough for every terminating
execution on this heap. -/
def InsertC (s : CSt) (na : Nat) (now : Int) : Option CRes :=
  insertLoop (s.heap.length + 2) s CPlace.root (some na) s.root now

/-- `malloc` of a new request node (src/alarm_mutex.c line 347) with the
fields `sscanf` fills in (id, seconds, message). `malloc` leaves `link`,
`time` and `Changed` indeterminate, so they are parameters `g`, `t`, `c`. -/
def allocNew (s : CSt) (a : Nat) (id0 sec : Int) (msg : String)
    (g : Option Nat) (t c : Int) : CSt :=
  { s with heap := (a, ⟨g, ⟨id0, sec, t, msg, c⟩⟩) :: s.heap }

/-- The loop of `Change` at the pointer level (src/alarm_mutex.c lines
92-111), with fuel: walk `alarm = *old; while (alarm != NULL) { if
(alarm->id == new->id) { patch fields; break; } alarm = alarm->link; }`.
Returns `none` on invalid dereference or fuel exhaustion. -/
def changeLoop : Nat → AHeap → Option Nat → Int → Int → Int → String → Option AHeap
  | 0, _, _, _, _, _, _ => none
  | _ + 1, h, none, _, _, _, _ => some h
  | fuel + 1, h, some a, now, nid, nsec, nmsg =>
    match hfind h a with
    | none => none
    | some nd =>
      if nd.data.id = nid then
        some (hmod h a (fun n0 =>
          { n0 with data := { n0.data with message := nmsg, seconds := nsec, time := now + nsec } }))
      else
        changeLoop fuel h nd.link now nid nsec nmsg

/-- `Change(&alarm_list, new)` at the pointer level: the root is not touched,
only node fields. -/
def ChangeC (s : CSt) (now nid nsec : Int) (nmsg : String) : Option CSt :=
  (changeLoop (s.heap.length + 1) s.heap s.root now nid nsec nmsg).map (fun h => ⟨s.root, h⟩)

/-- Extract the list of (address, node) pairs reachable from a pointer by
following `link` fields, with fuel (`none` when the chain dangles or cycles
past the fuel). -/
def chainA : AHeap → Nat → Option Nat → Option (List (Nat × CNode))
  | _, _, none => some []
  | _, 0, some _ => none
  | h, fuel + 1, some a =>
    match hfind h a with
    | none => none
    | some nd => (chainA h fuel nd.link).map (fun cl => (a, nd) :: cl)

/-- `cl` is the chain of nodes the global `alarm_list` currently threads. -/
def ChainIs (s : CSt) (cl : List (Nat × CNode)) : Prop :=
  ∃ f, chainA s.heap f s.root = some cl

/-- States of the store reachable from the initial empty `alarm_list` by the
operations the main thread performs under the mutex: `Insert` of a freshly
allocated node (src/alarm_mutex.c line 370), `Change` (line 385), and the
alarm thread unlinking the head (`alarm_list = alarm->link`, line 150).
The indeterminate `link` of the fresh node is instantiated with NULL (the
benign case; other garbage values only add undefined behavior, see the C3
analysis). -/
inductive Reach : CSt → Prop
  | init : Reach ⟨none, []⟩
  | insert (s s2 : CSt) (a : Nat) (id0 sec t c now : Int) (msg : String) :
      Reach s → hfind s.heap a = none →
      InsertC (allocNew s a id0 sec msg none t c) a now = some (CRes.ok s2) →
      Reach s2
  | change (s s2 : CSt) (now nid nsec : Int) (nmsg : String) :
      Reach s → ChangeC s now nid nsec nmsg = some s2 → Reach s2
  | pop (s : CSt) (a : Nat) (nd : CNode) :
      Reach s → s.root = some a → hfind s.heap a = some nd →
      Reach ⟨nd.link, s.heap⟩

/-! ## Lock-discipline action traces

The control skeleton of each thread body in src/alarm_mutex.c, reduced to the
actions relevant for lock discipline: mutex lock/unlock, condition wait
(which releases the mutex while blocked, per pthreads), sleep, console
output, and free. -/

/-- One observable action of a thread body. -/
inductive Act
  | lock
  | unlock
  | wait
  | sleeps (n : Int)
  | print
  | free
deriving DecidableEq, Repr

/-- One iteration of `alarm_thread` (src/alarm_mutex.c lines 127-162):
lock (130); if the list is nonempty, pop, printf (152) and signal; unlock
(158); sleep (161). `dispatch` says whether the list was nonempty, `st` is
the value `sleep_time` happens to hold (the source never assigns it on the
dispatch path). -/
def alarmIterActs (dispatch : Bool) (st : Int) : List Act :=
  if dispatch then [Act.lock, Act.print, Act.unlock, Act.sleeps st]
  else [Act.lock, Act.unlock, Act.sleeps 1]

/-- One iteration of `display_thread` (src/alarm_mutex.c lines 173-211) with
`k` announcement rounds: lock (175); cond wait (183); `k` times printf (194)
then sleep 5 (199); printf the removal (202); unlock (205); free (210). -/
def displayIterActs (k : Nat) : List Act :=
  [Act.lock, Act.wait] ++ (List.replicate k [Act.print, Act.sleeps 5]).flatten
    ++ [Act.print, Act.unlock, Act.free]

/-- One iteration of `main` processing a `Start_Alarm` command
(src/alarm_mutex.c lines 340-403): printf the prompt (342, and the blocking
`fgets` happens here too, before the lock); lock (365); `Insert` printfs
(82); unlock (373); unlock again (400). -/
def mainStartIterActs : List Act :=
  [Act.print, Act.lock, Act.print, Act.unlock, Act.unlock]

/-- One iteration of `main` processing a matching `Change_Alarm` command
(src/alarm_mutex.c lines 377-391): prompt; lock (380); `Change` printfs
(106); unlock (388); unlock again (400). -/
def mainChangeIterActs : List Act :=
  [Act.print, Act.lock, Act.print, Act.unlock, Act.unlock]

/-- Does the trace ever sleep while the mutex is held (`d` = how many times
the mutex is currently held)? A cond wait releases the mutex while blocked,
so it does not count. -/
def sleepsLockedAux : Nat → List Act → Bool
  | _, [] => false
  | d, Act.lock :: r => sleepsLockedAux (d + 1) r
  | d, Act.unlock :: r => sleepsLockedAux (d - 1) r
  | d, Act.sleeps _ :: r => decide (0 < d) || sleepsLockedAux d r
  | d, _ :: r => sleepsLockedAux d r

/-- Whether a thread body sleeps while holding the mutex. -/
def sleepsWhileLocked (l : List Act) : Bool := sleepsLockedAux 0 l

/-- Does the trace ever print (I/O) while the mutex is held? -/
def printsLockedAux : Nat → List Act → Bool
  | _, [] => false
  | d, Act.lock :: r => printsLockedAux (d + 1) r
  | d, Act.unlock :: r => printsLockedAux (d - 1) r
  | d, Act.print :: r => decide (0 < d) || printsLockedAux d r
  | d, _ :: r => printsLockedAux d r

/-- Whether a thread body prints while holding the mutex. -/
def printsWhileLocked (l : List Act) : Bool := printsLockedAux 0 l

/-- Lock/unlock strictly alternate: a lock is taken only when not held and
released only when held exactly once; a release while already unlocked
fails the check. -/
def wellAlternatedAux : Nat → List Act → Bool
  | _, [] => true
  | d, Act.lock :: r => decide (d = 0) && wellAlternatedAux (d + 1) r
  | d, Act.unlock :: r => decide (d = 1) && wellAlternatedAux (d - 1) r
  | d, _ :: r => wellAlternatedAux d r

/-- Whether a trace acquires and releases the mutex in strict alternation. -/
def wellAlternated (l : List Act) : Bool := wellAlternatedAux 0 l

/-! ## Interleaving model of the hand-off protocol

A two-thread transition system for `alarm_thread` (src/alarm_mutex.c lines
127-162) and `display_thread` (lines 165-211), faithful to the pthreads
semantics of `alarm_mutex`, `d1_cond`, `current_alarm` and `alarm_list`:
`pthread_cond_signal` with no waiter is lost, `pthread_cond_wait` releases
the mutex while blocked and reacquires it before returning. Alarms are
identified by their ids; `dispatched` logs the hand-off printf (line 152),
`announced` logs the display thread printfs (lines 194/202). -/

/-- Who holds `alarm_mutex`. -/
inductive MOwner
  | free
  | alarmT
  | dispT
deriving DecidableEq, Repr

/-- Program counter of `alarm_thread`. -/
inductive APc
  | aLock
  | aCheck
  | aUnlock
  | aSleep
deriving DecidableEq, Repr

/-- Program counter of `display_thread`. -/
inductive DPc
  | dLock
  | dWaitEnter
  | dBlocked
  | dReacquire
  | dRead
  | dAnnounce
  | dUnlock
deriving DecidableEq, Repr

/-- Shared state of the two threads. -/
structure Sys where
  owner : MOwner
  waiting : Bool
  alarms : List Nat
  current : Option Nat
  held : Option Nat
  dispatched : List Nat
  announced : List Nat
  apc : APc
  dpc : DPc
deriving DecidableEq, Repr

/-- One interleaved step of the two threads. Each constructor cites the
source lines it mirrors. -/
inductive SysStep : Sys → Sys → Prop
  | aLock (s : Sys) :
      s.apc = APc.aLock → s.owner = MOwner.free →
      SysStep s { s with owner := MOwner.alarmT, apc := APc.aCheck }
  | aCheckEmpty (s : Sys) :
      s.apc = APc.aCheck → s.owner = MOwner.alarmT → s.alarms = [] →
      SysStep s { s with apc := APc.aUnlock }
  | aCheckPop (s : Sys) (a : Nat) (rest : List Nat) :
      s.apc = APc.aCheck → s.owner = MOwner.alarmT → s.alarms = a :: rest →
      SysStep s { s with
        alarms := rest,
        current := some a,
        dispatched := s.dispatched ++ [a],
        waiting := false,
        dpc := if s.waiting then DPc.dReacquire else s.dpc,
        apc := APc.aUnlock }
  | aUnlock (s : Sys) :
      s.apc = APc.aUnlock → s.owner = MOwner.alarmT →
      SysStep s { s with owner := MOwner.free, apc := APc.aSleep }
  | aWake (s : Sys) :
      s.apc = APc.aSleep →
      SysStep s { s with apc := APc.aLock }
  | dLock (s : Sys) :
      s.dpc = DPc.dLock → s.owner = MOwner.free →
      SysStep s { s with owner := MOwner.dispT, dpc := DPc.dWaitEnter }
  | dWait (s : Sys) :
      s.dpc = DPc.dWaitEnter → s.owner = MOwner.dispT →
      SysStep s { s with owner := MOwner.free, waiting := true, dpc := DPc.dBlocked }
  | dReacq (s : Sys) :
      s.dpc = DPc.dReacquire → s.owner = MOwner.free →
      SysStep s { s with owner := MOwner.dispT, dpc := DPc.dRead }
  | dRead (s : Sys) :
      s.dpc = DPc.dRead → s.owner = MOwner.dispT →
      SysStep s { s with held := s.current, dpc := DPc.dAnnounce }
  | dAnnounce (s : Sys) (a : Nat) :
      s.dpc = DPc.dAnnounce → s.owner = MOwner.dispT → s.held = some a →
      SysStep s { s with announced := s.announced ++ [a], dpc := DPc.dUnlock }
  | dUnlock (s : Sys) :
      s.dpc = DPc.dUnlock → s.owner = MOwner.dispT →
      SysStep s { s with owner := MOwner.free, held := none, dpc := DPc.dLock }

/-- The record with id `n` is gone: not pending, not in `current_alarm`, not
held by the display thread, and never announced. Once a state satisfies
this, the alarm can never be announced (see the preservation theorem). -/
def LostAlarm (n : Nat) (s : Sys) : Prop :=
  n ∉ s.alarms ∧ s.current ≠ some n ∧ s.held ≠ some n ∧ n ∉ s.announced

/-! ## Concrete states used by the counterexamples and witnesses -/

/-- Store after `Start_Alarm(2) 10 A` at time 0: one pending record. -/
def exSt1 : CSt := ⟨some 0, [(0, ⟨none, ⟨2, 10, 10, "A", 0⟩⟩)]⟩

/-- Store after additionally `Start_Alarm(1) 1 B` at time 100: two pending
records, in ascending id order but with descending expiry (101 before 10). -/
def exSt2 : CSt :=
  ⟨some 1, [(1, ⟨some 0, ⟨1, 1, 101, "B", 0⟩⟩), (0, ⟨none, ⟨2, 10, 10, "A", 0⟩⟩)]⟩

/-- The chain `alarm_list` threads in `exSt2`. -/
def exChain2 : List (Nat × CNode) :=
  [(1, ⟨some 0, ⟨1, 1, 101, "B", 0⟩⟩), (0, ⟨none, ⟨2, 10, 10, "A", 0⟩⟩)]

/-- Store with one pending record of id 1: inserting any id greater than 1
makes `Insert` walk the indeterminate link of the new node. -/
def exSt3 : CSt := ⟨some 0, [(0, ⟨none, ⟨1, 5, 5, "x", 0⟩⟩)]⟩

/-- Hand-off interleaving, state 0: two pending alarms (ids 1 and 2), both
threads at the top of their loops. -/
def sys0 : Sys := ⟨MOwner.free, false, [1, 2], none, none, [], [], APc.aLock, DPc.dLock⟩

/-- Alarm thread has locked the mutex. -/
def sys1 : Sys := ⟨MOwner.alarmT, false, [1, 2], none, none, [], [], APc.aCheck, DPc.dLock⟩

/-- Alarm thread popped alarm 1 and signalled `d1_cond`; the display thread
is not yet waiting, so the signal is lost. -/
def sys2 : Sys := ⟨MOwner.alarmT, false, [2], some 1, none, [1], [], APc.aUnlock, DPc.dLock⟩

/-- Alarm thread unlocked. -/
def sys3 : Sys := ⟨MOwner.free, false, [2], some 1, none, [1], [], APc.aSleep, DPc.dLock⟩

/-- Display thread locked the mutex. -/
def sys4 : Sys := ⟨MOwner.dispT, false, [2], some 1, none, [1], [], APc.aSleep, DPc.dWaitEnter⟩

/-- Display thread entered `pthread_cond_wait`: mutex released, now waiting. -/
def sys5 : Sys := ⟨MOwner.free, true, [2], some 1, none, [1], [], APc.aSleep, DPc.dBlocked⟩

/-- Alarm thread finished its sleep. -/
def sys6 : Sys := ⟨MOwner.free, true, [2], some 1, none, [1], [], APc.aLock, DPc.dBlocked⟩

/-- Alarm thread locked again. -/
def sys7 : Sys := ⟨MOwner.alarmT, true, [2], some 1, none, [1], [], APc.aCheck, DPc.dBlocked⟩

/-- Alarm thread popped alarm 2, overwriting `current_alarm` (alarm 1 is now
unreachable), and this time the signal wakes the display thread. -/
def sys8 : Sys := ⟨MOwner.alarmT, false, [], some 2, none, [1, 2], [], APc.aUnlock, DPc.dReacquire⟩

/-- Alarm thread unlocked. -/
def sys9 : Sys := ⟨MOwner.free, false, [], some 2, none, [1, 2], [], APc.aSleep, DPc.dReacquire⟩

/-- Display thread reacquired the mutex inside `pthread_cond_wait`. -/
def sys10 : Sys := ⟨MOwner.dispT, false, [], some 2, none, [1, 2], [], APc.aSleep, DPc.dRead⟩

/-- Display thread read `current_alarm` (alarm 2). -/
def sys11 : Sys := ⟨MOwner.dispT, false, [], some 2, some 2, [1, 2], [], APc.aSleep, DPc.dAnnounce⟩

/-- Display thread announced alarm 2. Alarm 1 was dispatched but never
announced, and is no longer reachable from any component. -/
def sys12 : Sys := ⟨MOwner.dispT, false, [], some 2, some 2, [1, 2], [2], APc.aSleep, DPc.dUnlock⟩

/-- Display thread unlocked and freed; back at the top of its loop. -/
def sys13 : Sys := ⟨MOwner.free, false, [], some 2, none, [1, 2], [2], APc.aSleep, DPc.dLock⟩

/-- One more step (alarm thread wakes up), used by the persistence witness. -/
def sys14 : Sys := ⟨MOwner.free, false, [], some 2, none, [1, 2], [2], APc.aLock, DPc.dLock⟩

/-! ## Theorems -/

/-- Characterization of `Change`: the records before the first match are
returned untouched (`takeWhile`), the first matching record is patched in
place, everything after it (matches included) is returned untouched, and the
boolean reports whether a match existed. -/
theorem change_span (l : List AlarmRec) (now nid nsec : Int) (nmsg : String) :
    Change l now nid nsec nmsg =
      (l.takeWhile (fun a => !decide (a.id = nid)) ++
        (match l.dropWhile (fun a => !decide (a.id = nid)) with
          | [] => []
          | m :: post => patchRec m now nsec nmsg :: post),
        !(l.dropWhile (fun a => !decide (a.id = nid))).isEmpty) := by
  induction l with
  | nil => simp [Change]
  | cons a rest ih =>
    by_cases h : a.id = nid
    · simp [Change, h, List.takeWhile_cons, List.dropWhile_cons]
    · simp only [Change, h, if_false, List.takeWhile_cons, List.dropWhile_cons,
        decide_eq_true_eq, not_false_eq_true, Bool.not_false, if_true, ih,
        List.cons_append]
      simp [h]

/-- Claim C9: for every list and every change request, `Change` writes only
the `message`, `seconds` and `time` fields of the first record whose `id`
matches (`patchRec`); the records before it, the records after it (their
fields and their order), and the linkage are unchanged, and no record is
added or removed. -/
theorem C9_change_frame (l : List AlarmRec) (now nid nsec : Int) (nmsg : String) :
    Change l now nid nsec nmsg =
      (l.takeWhile (fun a => !decide (a.id = nid)) ++
        (match l.dropWhile (fun a => !decide (a.id = nid)) with
          | [] => []
          | m :: post => patchRec m now nsec nmsg :: post),
        !(l.dropWhile (fun a => !decide (a.id = nid))).isEmpty) :=
  change_span l now nid nsec nmsg

/-- Claim C4: if the store contains a record with the requested id, `Change`
overwrites the first such record's `message` and `seconds` with the new
values, recomputes its `time` as the call time `now` plus the new duration
(`patchRec`), and reports success. -/
theorem C4_update_found (pre : List AlarmRec) (m : AlarmRec) (post : List AlarmRec)
    (now nid nsec : Int) (nmsg : String)
    (hpre : ∀ x ∈ pre, x.id ≠ nid) (hm : m.id = nid) :
    Change (pre ++ m :: post) now nid nsec nmsg =
      (pre ++ patchRec m now nsec nmsg :: post, true) := by
  induction pre with
  | nil => simp [Change, hm]
  | cons x xs ih =>
    have hx : x.id ≠ nid := hpre x (by simp)
    have hxs : ∀ y ∈ xs, y.id ≠ nid := fun y hy => hpre y (by simp [hy])
    simp [Change, hx, ih hxs]

/-- Witness for C4 at a concrete store. -/
theorem C4_update_found_witness :
    Change [⟨1, 3, 3, "a", 0⟩, ⟨2, 4, 4, "b", 0⟩] 50 2 7 "n" =
      ([⟨1, 3, 3, "a", 0⟩, patchRec ⟨2, 4, 4, "b", 0⟩ 50 7 "n"], true) :=
  C4_update_found [⟨1, 3, 3, "a", 0⟩] ⟨2, 4, 4, "b", 0⟩ [] 50 2 7 "n"
    (by decide) (by decide)

/-- Claim C5: if no pending record has the requested id, `Change` reports
failure, leaves the store completely unchanged, and creates no record. -/
theorem C5_update_not_found (l : List AlarmRec) (now nid nsec : Int) (nmsg : String)
    (h : ∀ x ∈ l, x.id ≠ nid) :
    Change l now nid nsec nmsg = (l, false) := by
  induction l with
  | nil => simp [Change]
  | cons x xs ih =>
    have hx : x.id ≠ nid := h x (by simp)
    have hxs : ∀ y ∈ xs, y.id ≠ nid := fun y hy => h y (by simp [hy])
    simp [Change, hx, ih hxs]

/-- Witness for C5 at a concrete store. -/
theorem C5_update_not_found_witness :
    Change [⟨1, 3, 3, "a", 0⟩, ⟨2, 4, 4, "b", 0⟩] 50 9 7 "n" =
      ([⟨1, 3, 3, "a", 0⟩, ⟨2, 4, 4, "b", 0⟩], false) :=
  C5_update_not_found [⟨1, 3, 3, "a", 0⟩, ⟨2, 4, 4, "b", 0⟩] 50 9 7 "n" (by decide)

/-- Claim C2 counterexample: with a single pending record expiring at 10 and
`now = 0` (head not yet due), the dequeue step of the alarm thread removes
the head and returns it, instead of leaving the store unchanged as the claim
states. -/
theorem C2_counterexample :
    (0 : Int) < (⟨1, 10, 10, "x", 0⟩ : AlarmRec).time ∧
      (alarmThreadIter [⟨1, 10, 10, "x", 0⟩] 0).list = [] ∧
      (alarmThreadIter [⟨1, 10, 10, "x", 0⟩] 0).taken = some ⟨1, 10, 10, "x", 0⟩ := by
  decide

/-- Claim C2 amended: the dequeue step returns nothing, leaves the store
unchanged and reports a 1-unit sleep when the store is empty; when the store
is nonempty it removes and returns the head unconditionally (due or not),
reporting 0 when the head is due and the wait duration `time - now`
otherwise; consequently iterating the step drains the records in list
order. -/
theorem C2_dequeue_amended (l : List AlarmRec) (now : Int) (a : AlarmRec)
    (rest : List AlarmRec) :
    alarmThreadIter [] now = ⟨[], none, 1⟩ ∧
      alarmThreadIter (a :: rest) now =
        ⟨rest, some a, if a.time ≤ now then 0 else a.time - now⟩ ∧
      drainTaken l now = l := by
  refine ⟨rfl, rfl, ?_⟩
  induction l generalizing now with
  | nil => rfl
  | cons b bs ih => simp [drainTaken, alarmThreadIter, ih]

/-- Claim C7 counterexample: the display thread body with one announcement
round sleeps 5 time units while holding `alarm_mutex` (lock at line 175,
sleep at line 199, unlock only at line 205), so a component does hold the
store lock across a sleep. -/
theorem C7_counterexample : sleepsWhileLocked (displayIterActs 1) = true := by
  decide

/-- Claim C7 amended: the alarm thread and the main thread never sleep while
holding `alarm_mutex` (they unlock first), but every display-thread
iteration with at least one announcement round sleeps while holding it, and
both the display thread and the alarm thread (and `Insert`/`Change` called
from main) perform console output while holding it. -/
theorem C7_lock_discipline_amended (b : Bool) (st : Int) (k : Nat) :
    sleepsWhileLocked (alarmIterActs b st) = false ∧
      sleepsWhileLocked mainStartIterActs = false ∧
      sleepsWhileLocked mainChangeIterActs = false ∧
      sleepsWhileLocked (displayIterActs (k + 1)) = true ∧
      printsWhileLocked (displayIterActs k) = true ∧
      printsWhileLocked (alarmIterActs true st) = true ∧
      printsWhileLocked mainStartIterActs = true := by
  refine ⟨?_, by decide, by decide, ?_, ?_, ?_, by decide⟩
  · cases b <;> simp [alarmIterActs, sleepsWhileLocked, sleepsLockedAux]
  · simp [displayIterActs, sleepsWhileLocked, sleepsLockedAux, List.replicate_succ]
  · cases k <;>
      simp [displayIterActs, printsWhileLocked, printsLockedAux, List.replicate_succ]
  · simp [alarmIterActs, printsWhileLocked, printsLockedAux]

/-- Claim C10: in every main-loop iteration that submits a Start or Change
command, the code locks `alarm_mutex` once but unlocks it twice (lines
365/373/400 for Start, 380/388/400 for Change): the second release happens
while the mutex is already unlocked, so lock and unlock do not strictly
alternate. This evaluates the code at the failing iteration. -/
theorem C10_double_unlock :
    wellAlternated mainStartIterActs = false ∧
      wellAlternated mainChangeIterActs = false := by
  decide

/-- Fuel-indexed proof of the display-loop specification. -/
theorem display_spec_aux (w : Nat) (a : AlarmRec) :
    ∀ (k : Nat) (now : Int), (a.time - now).toNat ≤ k →
      (displayTrace w now a =
        (List.range (nAnn now a)).map
          (fun i : Nat => DEvent.status a.id w (now + 5 * (i : Int)) a.message)
          ++ [DEvent.removal a.id (now + 5 * (nAnn now a : Int)) a.message] ∧
        a.time ≤ now + 5 * nAnn now a ∧
        (nAnn now a = 0 ∨ a.time > now + 5 * nAnn now a - 5)) := by
  intro k
  induction k with
  | zero =>
    intro now hk
    have hle : ¬ a.time > now := by omega
    have hn : nAnn now a = 0 := by rw [nAnn]; simp [hle]
    have hd : displayTrace w now a = [DEvent.removal a.id now a.message] := by
      rw [displayTrace]; simp [hle]
    rw [hd, hn]
    refine ⟨by norm_num, by push_cast; omega, Or.inl rfl⟩
  | succ k ih =>
    intro now hk
    by_cases hgt : a.time > now
    · have hk2 : (a.time - (now + 5)).toNat ≤ k := by omega
      obtain ⟨e1, e2, e3⟩ := ih (now + 5) hk2
      have hn : nAnn now a = nAnn (now + 5) a + 1 := by
        rw [nAnn]; simp [hgt]
      have hd : displayTrace w now a =
          DEvent.status a.id w now a.message :: displayTrace w (now + 5) a := by
        rw [displayTrace]; simp [hgt]
      refine ⟨?_, ?_, ?_⟩
      · rw [hd, e1, hn, List.range_succ_eq_map, List.map_cons, List.map_map,
          List.cons_append]
        refine congrArg₂ List.cons (by norm_num) (congrArg₂ List.append ?_ ?_)
        · refine List.map_congr_left ?_
          intro i _
          have : now + 5 + 5 * (i : Int) = now + 5 * ((i : Int) + 1) := by ring
          simp [Function.comp, this]
        · have : now + 5 + 5 * (nAnn (now + 5) a : Int)
              = now + 5 * ((nAnn (now + 5) a : Int) + 1) := by ring
          simp [this]
      · rw [hn]; push_cast; omega
      · rw [hn]
        rcases e3 with h0 | hgt2
        · rw [h0]; right; push_cast; omega
        · right; push_cast; omega
    · have hle := hgt
      have hn : nAnn now a = 0 := by rw [nAnn]; simp [hgt]
      have hd : displayTrace w now a = [DEvent.removal a.id now a.message] := by
        rw [displayTrace]; simp [hgt]
      rw [hd, hn]
      refine ⟨by norm_num, by push_cast; omega, Or.inl rfl⟩

/-- Claim C6: while the current time is below the record's expiry the display
thread emits exactly one status notification per round, carrying the alarm
id, the worker identity, the current time and the message, advancing time by
the fixed 5-unit interval; the trace ends with exactly one removal
notification, emitted at the first announcement checkpoint at or past the
expiry (`nAnn` rounds, with `time ≤ now + 5 * nAnn` and the previous
checkpoint, if any, strictly before expiry). -/
theorem C6_display_loop (w : Nat) (now : Int) (a : AlarmRec) :
    displayTrace w now a =
      (List.range (nAnn now a)).map
        (fun i : Nat => DEvent.status a.id w (now + 5 * (i : Int)) a.message)
        ++ [DEvent.removal a.id (now + 5 * (nAnn now a : Int)) a.message] ∧
      a.time ≤ now + 5 * (nAnn now a : Int) ∧
      (nAnn now a = 0 ∨ a.time > now + 5 * (nAnn now a : Int) - 5) :=
  display_spec_aux w a (a.time - now).toNat now le_rfl

/-- One step of the hand-off protocol preserves `LostAlarm`: a record that is
neither pending, current, held nor announced can never re-enter any of these
places. -/
theorem sysStep_preserves_lost (n : Nat) (s s2 : Sys)
    (hstep : SysStep s s2) (hl : LostAlarm n s) : LostAlarm n s2 := by
  obtain ⟨h1, h2, h3, h4⟩ := hl
  cases hstep with
  | aLock hpc hown => exact ⟨h1, h2, h3, h4⟩
  | aCheckEmpty hpc hown hal => exact ⟨h1, h2, h3, h4⟩
  | aCheckPop a rest hpc hown hal =>
    rw [hal] at h1
    refine ⟨fun hmem => h1 (List.mem_cons_of_mem a hmem), ?_, h3, h4⟩
    intro hcur
    have hna : n = a := by simpa using hcur.symm
    exact h1 (hna ▸ List.mem_cons_self n rest)
  | aUnlock hpc hown => exact ⟨h1, h2, h3, h4⟩
  | aWake hpc => exact ⟨h1, h2, h3, h4⟩
  | dLock hpc hown => exact ⟨h1, h2, h3, h4⟩
  | dWait hpc hown => exact ⟨h1, h2, h3, h4⟩
  | dReacq hpc hown => exact ⟨h1, h2, h3, h4⟩
  | dRead hpc hown => exact ⟨h1, h2, fun hheld => h2 hheld, h4⟩
  | dAnnounce a hpc hown hheld =>
    refine ⟨h1, h2, h3, ?_⟩
    intro hmem
    rcases List.mem_append.mp hmem with hm | hm
    · exact h4 hm
    · have hna : n = a := by simpa using hm
      exact h3 (by rw [hna, hheld])
  | dUnlock hpc hown => exact ⟨h1, h2, by simp, h4⟩

/-- Claim C8 amended, persistence half: along any interleaving of the alarm
thread and the display thread, once a record is lost (not pending, not in
`current_alarm`, not held, never announced) it stays lost forever — in
particular it is never announced by any worker. -/
theorem C8_lost_forever (n : Nat) (s s2 : Sys)
    (hsteps : Relation.ReflTransGen SysStep s s2) (hl : LostAlarm n s) :
    LostAlarm n s2 := by
  induction hsteps with
  | refl => exact hl
  | tail hab hbc ih => exact sysStep_preserves_lost n _ _ hbc ih

/-- Witness for the persistence theorem at a concrete step. -/
theorem C8_lost_forever_witness : LostAlarm 1 sys14 :=
  C8_lost_forever 1 sys13 sys14
    (Relation.ReflTransGen.tail Relation.ReflTransGen.refl (SysStep.aWake sys13 rfl))
    ⟨by decide, by decide, by decide, by decide⟩

/-- The dropping interleaving: the alarm thread dispatches alarm 1 while the
display thread has not yet reached `pthread_cond_wait`, so the
`pthread_cond_signal` is lost; the next dispatch overwrites `current_alarm`
and wakes the display thread, which announces alarm 2 only. -/
theorem sys_trace : Relation.ReflTransGen SysStep sys0 sys13 := by
  have t01 : SysStep sys0 sys1 := SysStep.aLock sys0 rfl rfl
  have t12 : SysStep sys1 sys2 := SysStep.aCheckPop sys1 1 [2] rfl rfl rfl
  have t23 : SysStep sys2 sys3 := SysStep.aUnlock sys2 rfl rfl
  have t34 : SysStep sys3 sys4 := SysStep.dLock sys3 rfl rfl
  have t45 : SysStep sys4 sys5 := SysStep.dWait sys4 rfl rfl
  have t56 : SysStep sys5 sys6 := SysStep.aWake sys5 rfl
  have t67 : SysStep sys6 sys7 := SysStep.aLock sys6 rfl rfl
  have t78 : SysStep sys7 sys8 := SysStep.aCheckPop sys7 2 [] rfl rfl rfl
  have t89 : SysStep sys8 sys9 := SysStep.aUnlock sys8 rfl rfl
  have t910 : SysStep sys9 sys10 := SysStep.dReacq sys9 rfl rfl
  have t1011 : SysStep sys10 sys11 := SysStep.dRead sys10 rfl rfl
  have t1112 : SysStep sys11 sys12 := SysStep.dAnnounce sys11 2 rfl rfl rfl
  have t1213 : SysStep sys12 sys13 := SysStep.dUnlock sys12 rfl rfl
  exact ((((((((((((Relation.ReflTransGen.refl.tail t01).tail t12).tail t23).tail
    t34).tail t45).tail t56).tail t67).tail t78).tail t89).tail t910).tail
    t1011).tail t1112).tail t1213

/-- Claim C8 counterexample: a reachable interleaving in which alarm 1 is
handed off by the scheduler (it appears in the dispatch log) but ends lost:
not pending, not current, not held and never announced — the hand-off was
silently dropped even though the wait uses `d1_cond` under `alarm_mutex`. -/
theorem C8_counterexample :
    Relation.ReflTransGen SysStep sys0 sys13 ∧
      1 ∈ sys13.dispatched ∧ LostAlarm 1 sys13 :=
  ⟨sys_trace, by decide, by decide, by decide, by decide, by decide⟩

/-- Looking up after `hmod`: only address `a` is affected. -/
theorem hfind_hmod (h : AHeap) (a b : Nat) (f : CNode → CNode) :
    hfind (hmod h a f) b = (hfind h b).map (fun w => if b = a then f w else w) := by
  induction h with
  | nil => rfl
  | cons p rest ih =>
    obtain ⟨k, w⟩ := p
    by_cases hk : k = a
    · subst hk
      by_cases hb : k = b
      · subst hb
        simp [hmod, hfind]
      · simp [hmod, hfind, hb, ih]
    · by_cases hb : k = b
      · subst hb
        simp [hmod, hfind, hk]
      · simp [hmod, hfind, hk, hb, ih]

/-- `hmod` at an absent address is the identity. -/
theorem hmod_absent (h : AHeap) (a : Nat) (f : CNode → CNode)
    (hab : hfind h a = none) : hmod h a f = h := by
  induction h with
  | nil => rfl
  | cons p rest ih =>
    obtain ⟨k, w⟩ := p
    by_cases hk : k = a
    · subst hk
      simp [hfind] at hab
    · have hrest : hfind rest a = none := by simpa [hfind, hk] using hab
      simp [hmod, hk, ih hrest]

/-- Unfolding `chainA` at a NULL pointer. -/
theorem chainA_nil (h : AHeap) (f : Nat) : chainA h f none = some [] := by
  cases f <;> rfl

/-- Unfolding `chainA` at a live address. -/
theorem chainA_cons (h : AHeap) (f : Nat) (a : Nat) (nd : CNode)
    (hfa : hfind h a = some nd) :
    chainA h (f + 1) (some a) = (chainA h f nd.link).map (fun cl => (a, nd) :: cl) := by
  rw [chainA, hfa]

/-- Unfolding `chainA` at a dangling address. -/
theorem chainA_dangling (h : AHeap) (f : Nat) (a : Nat) (hfa : hfind h a = none) :
    chainA h (f + 1) (some a) = none := by
  rw [chainA, hfa]

/-- Unfolding `changeLoop` at a live address. -/
theorem changeLoop_cons (f : Nat) (h : AHeap) (a : Nat) (nd : CNode)
    (now nid nsec : Int) (nmsg : String) (hfa : hfind h a = some nd) :
    changeLoop (f + 1) h (some a) now nid nsec nmsg =
      if nd.data.id = nid then
        some (hmod h a (fun n0 =>
          { n0 with data :=
            { n0.data with message := nmsg, seconds := nsec, time := now + nsec } }))
      else changeLoop f h nd.link now nid nsec nmsg := by
  rw [changeLoop, hfa]

/-- Every node on a chain is in the heap. -/
theorem chain_find (h : AHeap) :
    ∀ (f : Nat) (p : Option Nat) (cl : List (Nat × CNode)),
      chainA h f p = some cl → ∀ q ∈ cl, hfind h q.1 = some q.2 := by
  intro f
  induction f with
  | zero =>
    intro p cl hc q hq
    cases p with
    | none =>
      rw [chainA_nil] at hc
      simp at hc
      subst hc
      simp at hq
    | some a => simp [chainA] at hc
  | succ f ih =>
    intro p cl hc q hq
    cases p with
    | none =>
      rw [chainA_nil] at hc
      simp at hc
      subst hc
      simp at hq
    | some a =>
      cases hfa : hfind h a with
      | none => rw [chainA_dangling h f a hfa] at hc; simp at hc
      | some nd =>
        rw [chainA_cons h f a nd hfa] at hc
        cases hrest : chainA h f nd.link with
        | none => rw [hrest] at hc; simp at hc
        | some cl1 =>
          rw [hrest] at hc
          simp at hc
          subst hc
          rcases List.mem_cons.mp hq with hq1 | hq1
          · subst hq1; exact hfa
          · exact ih nd.link cl1 hrest q hq1

/-- A chain avoiding address `a` is unchanged by any heap update that only
affects `a`. -/
theorem chain_congr (h h2 : AHeap) (a : Nat)
    (hagree : ∀ b, b ≠ a → hfind h2 b = hfind h b) :
    ∀ (f : Nat) (p : Option Nat) (cl : List (Nat × CNode)),
      chainA h f p = some cl → a ∉ cl.map Prod.fst → chainA h2 f p = some cl := by
  intro f
  induction f with
  | zero =>
    intro p cl hc hna
    cases p with
    | none => rw [chainA_nil] at hc ⊢; exact hc
    | some b => simp [chainA] at hc
  | succ f ih =>
    intro p cl hc hna
    cases p with
    | none => rw [chainA_nil] at hc ⊢; exact hc
    | some b =>
      cases hfb : hfind h b with
      | none => rw [chainA_dangling h f b hfb] at hc; simp at hc
      | some nd =>
        rw [chainA_cons h f b nd hfb] at hc
        cases hrest : chainA h f nd.link with
        | none => rw [hrest] at hc; simp at hc
        | some cl1 =>
          rw [hrest] at hc
          simp at hc
          subst hc
          have hba : b ≠ a := by
            intro hba
            exact hna (by simp [hba])
          have hna1 : a ∉ cl1.map Prod.fst := by
            intro hmem
            exact hna (by simp [hmem])
          have hfb2 : hfind h2 b = some nd := by rw [hagree b hba, hfb]
          rw [chainA_cons h2 f b nd hfb2, ih nd.link cl1 hrest hna1]
          rfl

/-- `changeLoop` (the body of `Change`) writes only `message`, `seconds` and
`time`: the `link` and `id` of every address are preserved. -/
theorem changeLoop_preserves :
    ∀ (f : Nat) (h h2 : AHeap) (p : Option Nat) (now nid nsec : Int) (nmsg : String),
      changeLoop f h p now nid nsec nmsg = some h2 →
      ∀ b, (hfind h2 b).map (fun nd => (nd.link, nd.data.id)) =
        (hfind h b).map (fun nd => (nd.link, nd.data.id)) := by
  intro f
  induction f with
  | zero => intro h h2 p now nid nsec nmsg hc; simp [changeLoop] at hc
  | succ f ih =>
    intro h h2 p now nid nsec nmsg hc b
    cases p with
    | none =>
      simp [changeLoop] at hc
      subst hc
      rfl
    | some a =>
      cases hfa : hfind h a with
      | none => rw [changeLoop, hfa] at hc; simp at hc
      | some nd =>
        rw [changeLoop_cons f h a nd now nid nsec nmsg hfa] at hc
        by_cases hid : nd.data.id = nid
        · rw [if_pos hid] at hc
          simp at hc
          subst hc
          rw [hfind_hmod]
          cases hfb : hfind h b with
          | none => rfl
          | some w =>
            by_cases hba : b = a
            · simp [hba]
            · simp [hba]
        · rw [if_neg hid] at hc
          exact ih h h2 nd.link now nid nsec nmsg hc b

/-- Chains through a heap update that preserves `link` and `id` keep their
addresses and their ids. -/
theorem chain_congr_ids (h h2 : AHeap)
    (hpres : ∀ b, (hfind h2 b).map (fun nd => (nd.link, nd.data.id)) =
      (hfind h b).map (fun nd => (nd.link, nd.data.id))) :
    ∀ (f : Nat) (p : Option Nat) (cl : List (Nat × CNode)),
      chainA h f p = some cl →
      ∃ cl2, chainA h2 f p = some cl2 ∧
        cl2.map Prod.fst = cl.map Prod.fst ∧
        cl2.map (fun q => q.2.data.id) = cl.map (fun q => q.2.data.id) := by
  intro f
  induction f with
  | zero =>
    intro p cl hc
    cases p with
    | none =>
      rw [chainA_nil] at hc
      simp at hc
      subst hc
      exact ⟨[], chainA_nil h2 0, by simp, by simp⟩
    | some b => simp [chainA] at hc
  | succ f ih =>
    intro p cl hc
    cases p with
    | none =>
      rw [chainA_nil] at hc
      simp at hc
      subst hc
      exact ⟨[], chainA_nil h2 (f + 1), by simp, by simp⟩
    | some b =>
      cases hfb : hfind h b with
      | none => rw [chainA_dangling h f b hfb] at hc; simp at hc
      | some nd =>
        rw [chainA_cons h f b nd hfb] at hc
        cases hrest : chainA h f nd.link with
        | none => rw [hrest] at hc; simp at hc
        | some cl1 =>
          rw [hrest] at hc
          simp at hc
          subst hc
          have hb2 := hpres b
          rw [hfb] at hb2
          cases hfb2 : hfind h2 b with
          | none => rw [hfb2] at hb2; simp at hb2
          | some nd2 =>
            rw [hfb2] at hb2
            simp at hb2
            obtain ⟨hlink, hid⟩ := hb2
            obtain ⟨cl2, hc2, hfst, hids⟩ := ih nd.link cl1 hrest
            refine ⟨(b, nd2) :: cl2, ?_, by simp [hfst], by simp [hids, hid]⟩
            rw [chainA_cons h2 f b nd2 hfb2, hlink, hc2]
            rfl

/-- `Insert` into an empty list (src/alarm_mutex.c lines 76-81): the loop is
skipped, the new node becomes the whole list, and its expiry is set to
`now + seconds`. -/
theorem insertC_empty (s : CSt) (a : Nat) (id0 sec t c now : Int) (msg : String)
    (hroot : s.root = none) (hfresh : hfind s.heap a = none) :
    InsertC (allocNew s a id0 sec msg none t c) a now =
      some (CRes.ok ⟨some a, (a, ⟨none, ⟨id0, sec, now + sec, msg, c⟩⟩) :: s.heap⟩) := by
  simp only [InsertC, allocNew, List.length_cons]
  rw [insertLoop]
  simp only [insertStep, readP, hroot, insertExit, writeP, hfind, if_pos rfl, hmod,
    hmod_absent s.heap a _ hfresh]
  simp

/-- Entering the loop a second time through the fresh node's NULL `link`
is undefined: the loop exits (`*last == NULL`), `*last = new` stores NULL,
and `new->time` dereferences NULL. -/
theorem insertLoop_field_none_undef (f : Nat) (s : CSt) (a : Nat) (nd : CNode)
    (old : Option Nat) (now : Int) (ha : hfind s.heap a = some nd)
    (hl : nd.link = none) :
    insertLoop (f + 1) s (CPlace.field a) none old now = some CRes.undef := by
  rw [insertLoop]
  simp [insertStep, readP, ha, hl, insertExit]

/-- `Insert` into a nonempty list: the comparison is against the head `n0`
(the never-advanced `old`). If the head's id and seconds both dominate the
new record's, the new node is prepended (`new->link = old; *last = new`)
with `Changed = 0` and its expiry set to `now + seconds`; in every other
case the loop advances through the new node's NULL `link` and the run is
undefined (`new->time` dereferences NULL). -/
theorem insertC_head (s : CSt) (a a0 : Nat) (n0 : CNode) (id0 sec t c now : Int)
    (msg : String) (hroot : s.root = some a0) (hfind0 : hfind s.heap a0 = some n0)
    (hfresh : hfind s.heap a = none) :
    InsertC (allocNew s a id0 sec msg none t c) a now =
      if n0.data.id ≥ id0 ∧ n0.data.seconds ≥ sec then
        some (CRes.ok ⟨some a, (a, ⟨some a0, ⟨id0, sec, now + sec, msg, 0⟩⟩) :: s.heap⟩)
      else some CRes.undef := by
  have hne : a ≠ a0 := by
    intro he
    rw [he, hfind0] at hfresh
    exact Option.noConfusion hfresh
  simp only [InsertC, allocNew, List.length_cons]
  rw [insertLoop]
  by_cases h1 : n0.data.id ≥ id0
  · by_cases h2 : n0.data.seconds ≥ sec
    · simp [insertStep, readP, hroot, hfind, hne, hfind0, h1, h2, insertBreak,
        insertExit, writeP, hmod, hmod_absent s.heap a _ hfresh]
    · simp [insertStep, readP, hroot, hfind, hne, hfind0, h1, h2]
      exact insertLoop_field_none_undef _ _ _ ⟨none, ⟨id0, sec, t, msg, c⟩⟩ _ _ (by simp [hfind]) rfl
  · simp [insertStep, readP, hroot, hfind, hne, hfind0, h1]
    exact insertLoop_field_none_undef _ _ _ ⟨none, ⟨id0, sec, t, msg, c⟩⟩ _ _ (by simp [hfind]) rfl

/-- Claim C1 amended: every store state reachable by the defined executions
of `Insert`, `Change` and the alarm-thread unlink is threaded in ascending
`id` order — the code's documented sort key (`Insert to the list, sorted by
smallest id`) — not in ascending `expires_at` order; `Insert`'s defined path
only prepends at the head (it requires the head to dominate the new record
in both id and seconds), and `Change` and unlinking preserve the id order,
so successive head removals yield non-decreasing ids. -/
theorem C1_id_order_invariant (s : CSt) (hr : Reach s) :
    ∃ cl, ChainIs s cl ∧ List.Chain' (· ≤ ·) (cl.map (fun q => q.2.data.id)) := by
  induction hr with
  | init => exact ⟨[], ⟨1, rfl⟩, by simp⟩
  | insert s s2 a id0 sec t c now msg hr hfresh hins ih =>
    obtain ⟨cl, ⟨f, hchain⟩, hsort⟩ := ih
    cases hroot : s.root with
    | none =>
      rw [insertC_empty s a id0 sec t c now msg hroot hfresh] at hins
      simp at hins
      subst hins
      refine ⟨[(a, ⟨none, ⟨id0, sec, now + sec, msg, c⟩⟩)], ⟨1, ?_⟩, by simp⟩
      rw [chainA_cons _ 0 a ⟨none, ⟨id0, sec, now + sec, msg, c⟩⟩ (by simp [hfind])]
      simp [chainA_nil]
    | some a0 =>
      rw [hroot] at hchain
      cases f with
      | zero => simp [chainA] at hchain
      | succ f =>
        cases hfind0 : hfind s.heap a0 with
        | none => rw [chainA_dangling s.heap f a0 hfind0] at hchain; simp at hchain
        | some n0 =>
          rw [chainA_cons s.heap f a0 n0 hfind0] at hchain
          cases hrest : chainA s.heap f n0.link with
          | none => rw [hrest] at hchain; simp at hchain
          | some cl1 =>
            rw [hrest] at hchain
            simp at hchain
            subst hchain
            rw [insertC_head s a a0 n0 id0 sec t c now msg hroot hfind0 hfresh] at hins
            by_cases hguard : n0.data.id ≥ id0 ∧ n0.data.seconds ≥ sec
            · rw [if_pos hguard] at hins
              simp at hins
              subst hins
              have hagree : ∀ b, b ≠ a →
                  hfind ((a, (⟨some a0, ⟨id0, sec, now + sec, msg, 0⟩⟩ : CNode)) :: s.heap) b
                    = hfind s.heap b := by
                intro b hb
                have hab : ¬ a = b := fun he => hb he.symm
                simp [hfind, hab]
              have hmem : a ∉ ((a0, n0) :: cl1).map Prod.fst := by
                intro hmem
                simp at hmem
                rcases hmem with h0 | h0
                · rw [h0, hfind0] at hfresh
                  exact Option.noConfusion hfresh
                · obtain ⟨w, hw⟩ := h0
                  have := chain_find s.heap (f + 1) (some a0) ((a0, n0) :: cl1)
                    (by rw [chainA_cons s.heap f a0 n0 hfind0, hrest]; rfl)
                    (a, w) (by simp [hw])
                  rw [this] at hfresh
                  exact Option.noConfusion hfresh
              have hchain2 := chain_congr s.heap _ a hagree (f + 1) (some a0)
                ((a0, n0) :: cl1)
                (by rw [chainA_cons s.heap f a0 n0 hfind0, hrest]; rfl) hmem
              refine ⟨(a, ⟨some a0, ⟨id0, sec, now + sec, msg, 0⟩⟩) :: (a0, n0) :: cl1,
                ⟨f + 2, ?_⟩, ?_⟩
              · rw [chainA_cons _ (f + 1) a ⟨some a0, ⟨id0, sec, now + sec, msg, 0⟩⟩
                  (by simp [hfind]), hchain2]
                rfl
              · simp only [List.map_cons]
                refine List.chain'_cons.mpr ⟨hguard.1, ?_⟩
                simpa using hsort
            · rw [if_neg hguard] at hins
              simp at hins
  | change s s2 now nid nsec nmsg hr hch ih =>
    obtain ⟨cl, ⟨f, hchain⟩, hsort⟩ := ih
    simp only [ChangeC] at hch
    cases hcl : changeLoop (s.heap.length + 1) s.heap s.root now nid nsec nmsg with
    | none => rw [hcl] at hch; simp at hch
    | some h2 =>
      rw [hcl] at hch
      simp at hch
      subst hch
      have hpres := changeLoop_preserves (s.heap.length + 1) s.heap h2 s.root
        now nid nsec nmsg hcl
      obtain ⟨cl2, hc2, hfst, hids⟩ := chain_congr_ids s.heap h2 hpres f s.root cl hchain
      exact ⟨cl2, ⟨f, hc2⟩, by rw [hids]; exact hsort⟩
  | pop s a nd hr hroot hfa ih =>
    obtain ⟨cl, ⟨f, hchain⟩, hsort⟩ := ih
    rw [hroot] at hchain
    cases f with
    | zero => simp [chainA] at hchain
    | succ f =>
      rw [chainA_cons s.heap f a nd hfa] at hchain
      cases hrest : chainA s.heap f nd.link with
      | none => rw [hrest] at hchain; simp at hchain
      | some cl1 =>
        rw [hrest] at hchain
        simp at hchain
        subst hchain
        refine ⟨cl1, ⟨f, hrest⟩, ?_⟩
        have := hsort
        simp only [List.map_cons] at this
        exact this.tail

/-- `exSt2` is reachable: insert id 2 (10 seconds) at time 0, then insert
id 1 (1 second) at time 100. -/
theorem reach_exSt2 : Reach exSt2 :=
  Reach.insert exSt1 exSt2 1 1 1 0 0 100 "B"
    (Reach.insert ⟨none, []⟩ exSt1 0 2 10 0 0 0 "A" Reach.init (by decide) (by decide))
    (by decide) (by decide)

/-- Claim C1 counterexample: a store state reachable by two inserts whose
pending chain is NOT sorted by ascending `expires_at` — the head expires at
101, its successor at 10 — refuting the claimed ordering invariant (the list
is sorted by id instead). -/
theorem C1_counterexample :
    Reach exSt2 ∧ ChainIs exSt2 exChain2 ∧
      ¬ List.Chain' (· ≤ ·) (exChain2.map (fun q => q.2.data.time)) :=
  ⟨reach_exSt2, ⟨3, by decide⟩, by norm_num [exChain2, List.chain'_cons]⟩

/-- Witness for the amended C1 invariant at the concrete reachable state. -/
theorem C1_id_order_invariant_witness :
    ∃ cl, ChainIs exSt2 cl ∧ List.Chain' (· ≤ ·) (cl.map (fun q => q.2.data.id)) :=
  C1_id_order_invariant exSt2 reach_exSt2

/-- Claim C3: inserting a record whose id exceeds the head's id (here id 2
into a list headed by id 1) makes `Insert` advance through the freshly
allocated node's indeterminate `link` (instantiated with NULL): the loop
exits, `*last = new` stores NULL into the new node itself, and
`new->time = time(NULL) + new->seconds` dereferences NULL — undefined
behavior instead of the claimed never-failing record-preserving insert. -/
theorem C3_insert_undef :
    InsertC (allocNew exSt3 1 2 3 "y" none 0 0) 1 7 = some CRes.undef := by
  decide
